import Mathlib

/-!
Verification of the MSF_FLOW plume pipeline (`msf_flow_luigi.py`).

Shallow embedding conventions:
* A Python `dict` (insertion-ordered, as produced by `csv.DictReader` and
  mutated via `update`) is a `Record`: an association list kept in insertion
  order, string keys and string values (all CSV values are strings; numeric
  values produced by the external statistics functions are represented by
  their string form, which is what `csv.DictWriter` writes).
* The filesystem is a finite map from path to raw file contents (`FS`).
* CSV is modelled over its plain fragment (no quoting, no embedded
  delimiters or newlines in values), with the `\r\n` line terminator used by
  `csv.DictWriter` and line-ending-tolerant reading; `DictReader` pads short
  rows with the default `restval` (modelled as the empty string) and drops
  surplus fields, and skips blank lines.  `DictWriter.writerow` with the
  default `extrasaction` raises exactly when the row has a key outside the
  header; missing keys are written as `restval`.
* The external collaborators `os.listdir`, `WindType`,
  `compute_wind_stats` and `compute_emission_rate` are parameters (the spec
  treats them as external pure interfaces); `\d` in the filename pattern is
  modelled as an ASCII digit.
* Exceptions are modelled with `Except`/`Option`; the optional logger is a
  `Bool` flag and every core function also returns the list of messages it
  logged (message text modelled up to Python string formatting).
-/

namespace MsfFlow

/-- A Python dict with string keys and values, in insertion order. -/
abbrev Record := List (String × String)

/-- Key membership test, `k in d`. -/
def hasKey (d : Record) (k : String) : Bool :=
  d.any (fun p => p.1 == k)

/-- Python `d[k]` (defaulting to `""`, the model of `restval`, when absent). -/
def getD (d : Record) (k : String) : String :=
  ((d.find? (fun p => p.1 == k)).map Prod.snd).getD ""

/-- Python `list(d.keys())`. -/
def keys (d : Record) : List String :=
  d.map Prod.fst

/-- Python `d[k] = v`: overwrite in place when the key exists, else append. -/
def setKey (d : Record) (k v : String) : Record :=
  if hasKey d k then d.map (fun p => if p.1 == k then (k, v) else p)
  else d ++ [(k, v)]

/-- Python `d.update(other)`: fold `setKey` over the items of `other`. -/
def dictUpdate (d other : Record) : Record :=
  other.foldl (fun acc p => setKey acc p.1 p.2) d

/-- The filesystem: a map from path to raw contents, as an association list. -/
abbrev FS := List (String × String)

/-- Contents of a file, `none` when the path does not exist. -/
def FS.readFile (fs : FS) (f : String) : Option String :=
  (fs.find? (fun p => p.1 == f)).map Prod.snd

/-- `os.path.isfile`. -/
def FS.isfile (fs : FS) (f : String) : Bool :=
  (fs.readFile f).isSome

/-- `open(f, "w")` followed by writing `c`: create or overwrite. -/
def FS.writeFile (fs : FS) (f c : String) : FS :=
  setKey fs f c

/-- Split a character list at every occurrence of `sep` (the model of
splitting a string on a one-character separator); the result is always
non-empty. -/
def splitOnChar (sep : Char) : List Char → List (List Char)
  | [] => [[]]
  | c :: cs =>
    match splitOnChar sep cs with
    | [] => [[c]]
    | r :: rs => if c == sep then [] :: r :: rs else (c :: r) :: rs

/-- Strip one trailing carriage return (universal-newline reading of `\r\n`). -/
def dropCRChars : List Char → List Char
  | [] => []
  | [c] => if c == '\r' then [] else [c]
  | c :: cs => c :: dropCRChars cs

/-- Split raw contents into CSV lines; blank lines are skipped by the reader. -/
def csvLines (s : String) : List String :=
  (((splitOnChar '\n' s.data).map dropCRChars).filter (fun l => !l.isEmpty)).map
    String.mk

/-- Split one line at the delimiter; with `skipInit` (Python
`skipinitialspace=True`) spaces immediately after each delimiter are dropped. -/
def splitFields (line : String) (skipInit : Bool) : List String :=
  match splitOnChar ',' line.data with
  | [] => []
  | f :: rest =>
    String.mk f :: rest.map (fun x =>
      String.mk (if skipInit then x.dropWhile (fun c => c == ' ') else x))

/-- One `DictReader` row: zip the header with the fields, padding short rows
with `restval` (modelled `""`) and dropping surplus fields. -/
def rowToRecord (header fields : List String) : Record :=
  header.zip (fields ++ List.replicate (header.length - fields.length) "")

/-- `csv.DictReader` over raw contents: first line is the header, every later
non-blank line is a row. -/
def dictRead (content : String) (skipInit : Bool) : List Record :=
  match csvLines content with
  | [] => []
  | h :: rows =>
    let header := splitFields h skipInit
    rows.map (fun r => rowToRecord header (splitFields r skipInit))

/-- `DictWriter.writeheader` output. -/
def headerLine (fieldNames : List String) : String :=
  String.intercalate "," fieldNames ++ "\r\n"

/-- Does the record fit the header, i.e. has it no key outside `fieldNames`?
`DictWriter.writerow` raises `ValueError` exactly when this is false. -/
def fitsHeader (fieldNames : List String) (d : Record) : Bool :=
  (keys d).all (fun k => fieldNames.contains k)

/-- The serialized row for a fitting record: the value of each header field in
header order (absent keys become `restval`, modelled `""`). -/
def rowLine (fieldNames : List String) (d : Record) : String :=
  String.intercalate "," (fieldNames.map (fun k => getD d k)) ++ "\r\n"

/-- `DictWriter.writerow`: `none` models the `ValueError` raised on a row with
keys outside the header. -/
def writeRowStr (fieldNames : List String) (d : Record) : Option String :=
  if fitsHeader fieldNames d then some (rowLine fieldNames d) else none

/-- ASCII digit run value, the model of `int` on the captured group. -/
def natOfDigits (ds : List Char) : Nat :=
  ds.foldl (fun n c => 10 * n + (c.toNat - 48)) 0

/-- Does `p` occur at the head of `s`? -/
def charsStartWith : List Char → List Char → Bool
  | [], _ => true
  | _ :: _, [] => false
  | p :: ps, c :: cs => p == c && charsStartWith ps cs

/-- `re.search("minppmm(\\d+)", ...)` on the character list: leftmost position
where the literal is followed by at least one digit; returns the greedy
(maximal) digit group there. -/
def reSearchMinppmm : List Char → Option (List Char)
  | [] => none
  | c :: cs =>
    if charsStartWith "minppmm".data (c :: cs) then
      let ds := ((c :: cs).drop 7).takeWhile Char.isDigit
      if ds.isEmpty then reSearchMinppmm cs else some ds
    else reSearchMinppmm cs

/-- `get_minppmm_from_fname`: the integer value of the captured digit group;
`none` models the `ValueError` raised when the pattern does not match. -/
def get_minppmm_from_fname (fname : String) : Option Nat :=
  (reSearchMinppmm fname.data).map natOfDigits

/-- Python string comparison (code-point lexicographic), as the Boolean
predicate handed to the stable sort. -/
def strLe (a b : String) : Bool := decide (a ≤ b)

/-- The comparison used by `sorted(plumes, key=lambda d: d[k])`. -/
def recLe (k : String) (d₁ d₂ : Record) : Bool := strLe (getD d₁ k) (getD d₂ k)

/-- The exceptions the pipeline can raise. -/
inductive Err where
  | fileNotFound (fname : String)
  | valueError (fname : String)
  | indexError
  | keyError (k : String)
deriving Repr, DecidableEq

/-- Result of classifying one wind subdirectory name (`WindType(subdir)`):
whether it is unknown, its canonical type string, and its altitude
identifiers (an unordered collection; the engine sorts them). -/
structure WindTypeInfo where
  is_unknown : Bool
  type_as_str : String
  alts : List String

/-- The external collaborators of the enrichment engine: the wind-root
directory listing (`os.listdir(winds_dir)`), the wind classifier, and the two
external statistics functions, treated as pure interfaces. -/
structure Env where
  listdir : List String
  windType : String → WindTypeInfo
  compute_wind_stats : Record → String → Option Int → String → String → Record
  compute_emission_rate : Record → String → Option Int → Record

/-- Python string formatting of a record in a log message (modelled up to
exact dict formatting). -/
def fmtRecord (d : Record) : String :=
  String.intercalate ", " (d.map (fun p => p.1 ++ ": " ++ p.2))

/-- Python string formatting of a string list in a log message. -/
def fmtStrList (l : List String) : String :=
  String.intercalate ", " l

/-- Python string formatting of a record list in a log message. -/
def fmtRecords (l : List Record) : String :=
  String.intercalate "; " (l.map fmtRecord)

/-- `os.path.join` for a relative entry name. -/
def pathJoin (dir entry : String) : String := dir ++ "/" ++ entry

/-- The loop body of `process_plume`: state is (plume, emission_stats, log). -/
def processPlumeStep (env : Env) (logger : Bool) (winds_dir : String)
    (fill : Option Int) (st : Record × Record × List String) (subdir : String) :
    Record × Record × List String :=
  let log := st.2.2 ++ (if logger then ["processing for winds in " ++ subdir] else [])
  let wt := env.windType subdir
  if wt.is_unknown then (st.1, st.2.1, log)
  else
    let wind_type := wt.type_as_str
    let winds_subdir := pathJoin winds_dir subdir
    let alts := wt.alts.mergeSort strLe
    let plume := alts.foldl
      (fun p alt =>
        dictUpdate p (env.compute_wind_stats p winds_subdir fill wind_type alt))
      st.1
    let emission_stats :=
      dictUpdate st.2.1 (env.compute_emission_rate plume wind_type fill)
    (plume, emission_stats, log)

/-- `process_plume`: enrich one record from the wind directory tree, returning
the mutated record and the log stream. -/
def process_plume (env : Env) (logger : Bool) (plume : Record)
    (winds_dir : String) (fill : Option Int) : Record × List String :=
  let log0 := if logger then ["processing plume " ++ fmtRecord plume, fmtRecord plume] else []
  let subdirs := (env.listdir.filter (fun f => !f.startsWith ".")).mergeSort strLe
  let st := subdirs.foldl (processPlumeStep env logger winds_dir fill) (plume, [], log0)
  let plume := dictUpdate st.1 st.2.1
  (plume, st.2.2 ++ (if logger then ["Computed plume=" ++ fmtRecord plume] else []))

/-- `dict_reader_plus_update`: read one delimited file (with
`skipinitialspace=True`) and update every row with `d`; `none` models the
`OSError` when the file is missing. -/
def dict_reader_plus_update (fs : FS) (fname : String) (d : Record) :
    Except Err (List Record) :=
  match fs.readFile fname with
  | none => .error (.fileNotFound fname)
  | some content => .ok ((dictRead content true).map (fun row => dictUpdate row d))

/-- The loading comprehension of `process_plumes` (lines 100-103): for each
file, parse the threshold from its name, then read and tag its rows; results
are chained in file order.  The first exception propagates. -/
def loadAll (fs : FS) (minppmm_key : String) : List String → Except Err (List Record)
  | [] => .ok []
  | fname :: rest =>
    match get_minppmm_from_fname fname with
    | none => .error (.valueError fname)
    | some n =>
      match dict_reader_plus_update fs fname [(minppmm_key, toString n)] with
      | .error e => .error e
      | .ok rows => (loadAll fs minppmm_key rest).map (fun more => rows ++ more)

/-- One iteration of the enrichment comprehension (lines 112-113): enrich the
next plume and accumulate its log. -/
def enrichStep (env : Env) (logger : Bool) (winds_dir : String)
    (fill : Option Int) (st : List Record × List String) (p : Record) :
    List Record × List String :=
  let r := process_plume env logger p winds_dir fill
  (st.1 ++ [r.1], st.2 ++ r.2)

/-- The result and log stream of the record loader. -/
structure LoadResult where
  result : Except Err (List Record)
  log : List String
deriving Repr

/-- `process_plumes`: load all files, tag each row with its threshold, sort by
the first field name of the first record, then enrich every record.
`plumes[0]` on an empty load and `list(...)[0]` on an empty key list raise
`IndexError`; the `sorted` call raises `KeyError` when any record lacks the
sort key (Python computes every key before comparing). -/
def process_plumes (env : Env) (fs : FS) (flist : List String)
    (winds_dir : String) (fill : Option Int) (minppmm_key : String)
    (logger : Bool) : LoadResult :=
  let log := if logger then ["flist=" ++ fmtStrList flist] else []
  match loadAll fs minppmm_key flist with
  | .error e => ⟨.error e, log⟩
  | .ok plumes =>
    match plumes.head? with
    | none => ⟨.error .indexError, log⟩
    | some first =>
      match (keys first).head? with
      | none => ⟨.error .indexError, log⟩
      | some sort_by_key =>
        if plumes.all (fun d => hasKey d sort_by_key) then
          let plumes := plumes.mergeSort (recLe sort_by_key)
          let log := log ++ (if logger then ["plumes=" ++ fmtRecords plumes] else [])
          let st := plumes.foldl (enrichStep env logger winds_dir fill) ([], log)
          ⟨.ok st.1, st.2 ++ (if logger then ["Computed plumes=" ++ fmtRecords st.1] else [])⟩
        else ⟨.error (.keyError sort_by_key), log⟩

/-- Lines 120-132 of `insert_plumes_in_file`: when the output file exists,
read and prepend its rows (existing-then-new), and copy the raw file to
`<fname>.bak` before anything is rewritten. -/
def mergeAndBackup (plumes : List Record) (fname : String) (logger : Bool)
    (fs : FS) : List Record × FS × List String :=
  match fs.readFile fname with
  | some content =>
    (dictRead content false ++ plumes,
     fs.writeFile (fname ++ ".bak") content,
     if logger then ["Original plume file backed up to " ++ fname ++ ".bak"] else [])
  | none => (plumes, fs, [])

/-- Lines 134-142: sort the combined list when a sort key is given and present
in the first record; `.error` models the `KeyError` raised by `sorted` when
some later record lacks the key.  The caller guarantees the list is
non-empty, so `plumes[0]` is modelled by `headD []`. -/
def sortPlumes (plumes : List Record) (sort_by_key : Option String)
    (logger : Bool) : Except Err (List Record) × List String :=
  match sort_by_key with
  | none => (.ok plumes, [])
  | some k =>
    if hasKey (plumes.headD []) k then
      if plumes.all (fun d => hasKey d k) then (.ok (plumes.mergeSort (recLe k)), [])
      else (.error (.keyError k), [])
    else
      (.ok plumes,
       if logger then ["Sort key " ++ k ++ " not found.", "Plumes left unsorted."] else [])

/-- One iteration of the writer loop (lines 151-158): append the row when
`writerow` succeeds, otherwise keep the content and log the two warnings. -/
def writeRowStep (field_names : List String) (fname : String) (logger : Bool)
    (st : String × List String) (plume : Record) : String × List String :=
  match writeRowStr field_names plume with
  | some row => (st.1 ++ row, st.2)
  | none =>
    (st.1,
     st.2 ++ (if logger then
       ["Could not write plume: " ++ fmtRecord plume,
        "Check that the plume fields match the header in " ++ fname] else []))

/-- Lines 144-158: derive the header from the first record, then write the
header and every row, skipping (with warnings) each row whose keys do not fit
the header. -/
def writeTable (plumes : List Record) (fname : String) (logger : Bool)
    (fs : FS) : FS × List String :=
  let field_names := keys (plumes.headD [])
  let st := plumes.foldl (writeRowStep field_names fname logger) (headerLine field_names, [])
  (fs.writeFile fname st.1, st.2)

/-- The combined record list a non-empty writer call operates on: the rows of
the existing output file (when it exists) followed by the new records. -/
def combinedPlumes (plumes : List Record) (fname : String) (fs : FS) : List Record :=
  (match fs.readFile fname with
   | some content => dictRead content false
   | none => []) ++ plumes

/-- The serialized table for a record list: header from the first record, then
one line per record that fits the header, in list order (records that do not
fit are skipped). -/
def tableFor (l : List Record) : String :=
  headerLine (keys (l.headD [])) ++
    String.join ((l.filter (fitsHeader (keys (l.headD [])))).map (rowLine (keys (l.headD []))))

/-- Final state of a writer call: the filesystem on exit, the log stream, and
whether the call returned normally or raised. -/
structure WriteResult where
  fs : FS
  log : List String
  outcome : Except Err Unit
deriving Repr

/-- `insert_plumes_in_file`: no-op with a warning on an empty list; otherwise
merge with the existing file (backing it up), optionally sort, and rewrite. -/
def insert_plumes_in_file (plumes : List Record) (fname : String)
    (sort_by_key : Option String) (logger : Bool) (fs : FS) : WriteResult :=
  if plumes.length > 0 then
    let m := mergeAndBackup plumes fname logger fs
    match sortPlumes m.1 sort_by_key logger with
    | (.error e, log₂) => ⟨m.2.1, m.2.2 ++ log₂, .error e⟩
    | (.ok sorted, log₂) =>
      let w := writeTable sorted fname logger m.2.1
      ⟨w.1,
       m.2.2 ++ log₂ ++ w.2 ++
         (if logger then ["Extended plume file written to " ++ fname] else []),
       .ok ()⟩
  else
    ⟨fs, if logger then ["Skipped insertion because plume list was empty"] else [], .ok ()⟩

/-! ## Basic lemmas about the embedding -/

theorem find?_map_update_same (f c : String) :
    ∀ fs : FS, hasKey fs f = true →
      List.find? (fun p => p.1 == f) (fs.map (fun p => if p.1 == f then (f, c) else p)) =
        some (f, c)
  | [], h => by simp [hasKey] at h
  | p :: fs, h => by
    by_cases hp : (p.1 == f) = true
    · simp only [List.map_cons, if_pos hp, List.find?_cons, beq_self_eq_true]
    · have h' : hasKey fs f = true := by
        simp only [hasKey, List.any_cons, Bool.or_eq_true] at h
        rcases h with h | h
        · exact absurd h hp
        · exact h
      have hp' : (p.1 == f) = false := by
        exact Bool.not_eq_true _ ▸ (by simpa using hp)
      simp only [List.map_cons, if_neg hp]
      simp only [List.find?_cons, hp']
      exact find?_map_update_same f c fs h'

theorem find?_map_update_ne (f c g : String) (hg : g ≠ f) :
    ∀ fs : FS,
      List.find? (fun p => p.1 == g) (fs.map (fun p => if p.1 == f then (f, c) else p)) =
        List.find? (fun p => p.1 == g) fs
  | [] => rfl
  | p :: fs => by
    by_cases hp : (p.1 == f) = true
    · have hfg : ((f : String) == g) = false :=
        beq_eq_false_iff_ne.mpr (fun h => hg h.symm)
      have hpg : (p.1 == g) = false := by
        rw [beq_iff_eq.mp hp]
        exact hfg
      simp only [List.map_cons, if_pos hp]
      simp only [List.find?_cons, hfg, hpg]
      exact find?_map_update_ne f c g hg fs
    · by_cases hq : (p.1 == g) = true
      · simp only [List.map_cons, if_neg hp]
        simp only [List.find?_cons, hq]
      · have hq' : (p.1 == g) = false := by
          exact Bool.not_eq_true _ ▸ (by simpa using hq)
        simp only [List.map_cons, if_neg hp]
        simp only [List.find?_cons, hq']
        exact find?_map_update_ne f c g hg fs

theorem readFile_setKey_same (fs : FS) (f c : String) :
    FS.readFile (setKey fs f c) f = some c := by
  unfold FS.readFile setKey
  split
  · next h => rw [find?_map_update_same f c fs h]; rfl
  · next h =>
    rw [List.find?_append]
    have hn : List.find? (fun p => p.1 == f) fs = none := by
      rw [List.find?_eq_none]
      intro x hx hpx
      exact h (by unfold hasKey; exact List.any_eq_true.mpr ⟨x, hx, hpx⟩)
    rw [hn, List.find?_cons_of_pos _ (by simp)]
    rfl

theorem readFile_setKey_ne (fs : FS) (f c g : String) (hg : g ≠ f) :
    FS.readFile (setKey fs f c) g = FS.readFile fs g := by
  unfold FS.readFile setKey
  split
  · rw [find?_map_update_ne f c g hg fs]
  · rw [List.find?_append]
    have hfg : ((f : String) == g) = false :=
      beq_eq_false_iff_ne.mpr (fun h => hg h.symm)
    simp only [List.find?_cons, hfg, List.find?_nil, Option.or_none]

theorem readFile_writeFile_same (fs : FS) (f c : String) :
    (fs.writeFile f c).readFile f = some c :=
  readFile_setKey_same fs f c

theorem readFile_writeFile_ne (fs : FS) (f c g : String) (hg : g ≠ f) :
    (fs.writeFile f c).readFile g = fs.readFile g :=
  readFile_setKey_ne fs f c g hg

theorem append_bak_ne (fname : String) : fname ++ ".bak" ≠ fname := by
  intro h
  have h₂ := congrArg String.length h
  rw [String.length_append] at h₂
  have h₃ : (".bak" : String).length = 4 := rfl
  omega

theorem dictUpdate_nil (d : Record) : dictUpdate d [] = d := rfl

/-! ## The string order used by every `sorted` call -/

theorem strLe_trans {a b c : String} (hab : strLe a b = true) (hbc : strLe b c = true) :
    strLe a c = true := by
  simp only [strLe, decide_eq_true_eq] at *
  exact le_trans hab hbc

theorem strLe_total (a b : String) : strLe a b || strLe b a := by
  simp only [strLe, Bool.or_eq_true, decide_eq_true_eq]
  exact le_total a b

theorem recLe_trans {k : String} {d₁ d₂ d₃ : Record} (h₁ : recLe k d₁ d₂ = true)
    (h₂ : recLe k d₂ d₃ = true) : recLe k d₁ d₃ = true :=
  strLe_trans h₁ h₂

theorem recLe_total (k : String) (d₁ d₂ : Record) : recLe k d₁ d₂ || recLe k d₂ d₁ :=
  strLe_total _ _

/-- Sorting two permuted lists of strings yields the same list: the sort is a
sorted permutation and string comparison is antisymmetric. -/
theorem sorted_mergeSort_strLe (l : List String) :
    List.Sorted (fun a b : String => a ≤ b) (l.mergeSort strLe) :=
  (@List.sorted_mergeSort String strLe
    (fun _ _ _ hab hbc => strLe_trans hab hbc) strLe_total l).imp (by simp [strLe])

theorem mergeSort_perm_eq {l₁ l₂ : List String} (h : l₁.Perm l₂) :
    l₁.mergeSort strLe = l₂.mergeSort strLe :=
  List.eq_of_perm_of_sorted
    ((List.mergeSort_perm l₁ strLe).trans (h.trans (List.mergeSort_perm l₂ strLe).symm))
    (sorted_mergeSort_strLe l₁) (sorted_mergeSort_strLe l₂)

/-! ## Structure of the writer -/

theorem foldl_str_append (a : String) : ∀ (l : List String) (b : String),
    l.foldl (fun r s => r ++ s) (a ++ b) = a ++ l.foldl (fun r s => r ++ s) b
  | [], _ => rfl
  | s :: l, b => by
    simp only [List.foldl_cons]
    rw [String.append_assoc]
    exact foldl_str_append a l (b ++ s)

theorem join_cons (s : String) (l : List String) :
    String.join (s :: l) = s ++ String.join l := by
  show (s :: l).foldl (fun r s => r ++ s) "" = s ++ l.foldl (fun r s => r ++ s) ""
  simp only [List.foldl_cons, String.empty_append]
  calc l.foldl (fun r s => r ++ s) s
      = l.foldl (fun r s => r ++ s) (s ++ "") := by rw [String.append_empty]
    _ = s ++ l.foldl (fun r s => r ++ s) "" := foldl_str_append s l ""

/-- The two warnings logged for a row that does not fit the header. -/
def rowWarnings (fname : String) (logger : Bool) (d : Record) : List String :=
  if logger then
    ["Could not write plume: " ++ fmtRecord d,
     "Check that the plume fields match the header in " ++ fname] else []

theorem foldl_writeRowStep (H : List String) (fname : String) (logger : Bool) :
    ∀ (l : List Record) (acc : String) (log : List String),
      l.foldl (writeRowStep H fname logger) (acc, log) =
        (acc ++ String.join ((l.filter (fitsHeader H)).map (rowLine H)),
         log ++ (l.filter (fun d => !fitsHeader H d)).flatMap (rowWarnings fname logger))
  | [], acc, log => by simp [String.join]
  | d :: l, acc, log => by
    simp only [List.foldl_cons]
    by_cases hd : fitsHeader H d = true
    · have hstep : writeRowStep H fname logger (acc, log) d = (acc ++ rowLine H d, log) := by
        simp [writeRowStep, writeRowStr, hd]
      rw [hstep, foldl_writeRowStep H fname logger l (acc ++ rowLine H d) log]
      rw [List.filter_cons_of_pos (by simpa using hd),
          List.filter_cons_of_neg (by simp [hd])]
      simp [join_cons, String.append_assoc]
    · have hd' : fitsHeader H d = false := by
        exact Bool.not_eq_true _ ▸ (by simpa using hd)
      have hstep : writeRowStep H fname logger (acc, log) d =
          (acc, log ++ rowWarnings fname logger d) := by
        simp [writeRowStep, writeRowStr, hd', rowWarnings]
      rw [hstep, foldl_writeRowStep H fname logger l acc (log ++ rowWarnings fname logger d)]
      rw [List.filter_cons_of_neg (by simp [hd']),
          List.filter_cons_of_pos (by simp [hd'])]
      simp [List.append_assoc]

theorem writeTable_eq (plumes : List Record) (fname : String) (logger : Bool) (fs : FS) :
    writeTable plumes fname logger fs =
      (fs.writeFile fname (tableFor plumes),
       (plumes.filter (fun d => !fitsHeader (keys (plumes.headD [])) d)).flatMap
         (rowWarnings fname logger)) := by
  simp only [writeTable, tableFor, foldl_writeRowStep]
  simp

theorem mergeAndBackup_fst (plumes : List Record) (fname : String) (logger : Bool)
    (fs : FS) : (mergeAndBackup plumes fname logger fs).1 = combinedPlumes plumes fname fs := by
  unfold mergeAndBackup combinedPlumes
  cases fs.readFile fname <;> rfl

theorem mergeAndBackup_fs_exists (plumes : List Record) (fname : String) (logger : Bool)
    (fs : FS) (content : String) (h : fs.readFile fname = some content) :
    (mergeAndBackup plumes fname logger fs).2.1 = fs.writeFile (fname ++ ".bak") content := by
  unfold mergeAndBackup
  rw [h]

theorem mergeAndBackup_fs_missing (plumes : List Record) (fname : String) (logger : Bool)
    (fs : FS) (h : fs.readFile fname = none) :
    (mergeAndBackup plumes fname logger fs).2.1 = fs := by
  unfold mergeAndBackup
  rw [h]

theorem sortPlumes_none (ps : List Record) (logger : Bool) :
    sortPlumes ps none logger = (.ok ps, []) := rfl

theorem sortPlumes_sorts (ps : List Record) (k : String) (logger : Bool)
    (h1 : hasKey (ps.headD []) k = true) (h2 : ps.all (fun d => hasKey d k) = true) :
    sortPlumes ps (some k) logger = (.ok (ps.mergeSort (recLe k)), []) := by
  simp only [sortPlumes]
  rw [if_pos h1, if_pos h2]

theorem sortPlumes_missing_first (ps : List Record) (k : String) (logger : Bool)
    (h1 : hasKey (ps.headD []) k = false) :
    sortPlumes ps (some k) logger =
      (.ok ps,
       if logger then ["Sort key " ++ k ++ " not found.", "Plumes left unsorted."] else []) := by
  simp only [sortPlumes]
  rw [if_neg (by simp only [h1]; exact Bool.false_ne_true)]

theorem sortPlumes_missing_later (ps : List Record) (k : String) (logger : Bool)
    (h1 : hasKey (ps.headD []) k = true) (h2 : ps.all (fun d => hasKey d k) = false) :
    sortPlumes ps (some k) logger = (.error (.keyError k), []) := by
  simp only [sortPlumes]
  rw [if_pos h1, if_neg (by simp [h2])]

theorem insert_nonempty_ok (plumes : List Record) (fname : String)
    (sort_by_key : Option String) (logger : Bool) (fs : FS)
    (hne : plumes ≠ []) (sorted : List Record) (lg : List String)
    (hs : sortPlumes (mergeAndBackup plumes fname logger fs).1 sort_by_key logger =
      (.ok sorted, lg)) :
    insert_plumes_in_file plumes fname sort_by_key logger fs =
      ⟨(mergeAndBackup plumes fname logger fs).2.1.writeFile fname (tableFor sorted),
       (mergeAndBackup plumes fname logger fs).2.2 ++ lg ++
         ((sorted.filter (fun d => !fitsHeader (keys (sorted.headD [])) d)).flatMap
           (rowWarnings fname logger)) ++
         (if logger then ["Extended plume file written to " ++ fname] else []),
       .ok ()⟩ := by
  have hlen : plumes.length > 0 := by simpa [List.length_pos] using hne
  simp only [insert_plumes_in_file, if_pos hlen, hs, writeTable_eq]

theorem insert_nonempty_error (plumes : List Record) (fname : String)
    (sort_by_key : Option String) (logger : Bool) (fs : FS)
    (hne : plumes ≠ []) (e : Err) (lg : List String)
    (hs : sortPlumes (mergeAndBackup plumes fname logger fs).1 sort_by_key logger =
      (.error e, lg)) :
    insert_plumes_in_file plumes fname sort_by_key logger fs =
      ⟨(mergeAndBackup plumes fname logger fs).2.1,
       (mergeAndBackup plumes fname logger fs).2.2 ++ lg, .error e⟩ := by
  have hlen : plumes.length > 0 := by simpa [List.length_pos] using hne
  simp only [insert_plumes_in_file, if_pos hlen, hs]

/-! ## Claim theorems -/

/-- C7: a writer call with an empty record list performs no file mutation at
all (the filesystem is returned untouched, so the output file is neither read
nor rewritten and no `.bak` appears) and returns normally, its only logging
being the empty-list warning. -/
theorem empty_writer_call_is_noop (fname : String) (sort_by_key : Option String)
    (logger : Bool) (fs : FS) :
    insert_plumes_in_file [] fname sort_by_key logger fs =
      ⟨fs, if logger then ["Skipped insertion because plume list was empty"] else [],
       .ok ()⟩ := rfl

/-- C2 counterexample: the claim quantifies over every writer call whose
output file pre-exists, but a call with an empty record list is a no-op: here
the output file exists before the call and still no `.bak` file exists after
it. -/
theorem backup_claim_fails_on_empty_list :
    FS.isfile [("out.csv", "a\r\n1\r\n")] "out.csv" = true ∧
    (insert_plumes_in_file [] "out.csv" (some "a") true
        [("out.csv", "a\r\n1\r\n")]).fs.readFile "out.csv.bak" = none := by
  constructor
  · rfl
  · rfl

/-- C2 (amended): for every writer call with a NON-EMPTY record list whose
output file exists before the call, the `.bak` copy holding exactly the
pre-call contents is already in place after the merge/backup step — before
the output file is rewritten — and still exists, unchanged, when the call
ends (normally or with an exception). -/
theorem backup_before_rewrite (plumes : List Record) (fname : String)
    (sort_by_key : Option String) (logger : Bool) (fs : FS) (content : String)
    (hne : plumes ≠ []) (hex : fs.readFile fname = some content) :
    (mergeAndBackup plumes fname logger fs).2.1.readFile (fname ++ ".bak") = some content ∧
    (insert_plumes_in_file plumes fname sort_by_key logger fs).fs.readFile (fname ++ ".bak") =
      some content := by
  have hbak : (mergeAndBackup plumes fname logger fs).2.1.readFile (fname ++ ".bak") =
      some content := by
    rw [mergeAndBackup_fs_exists plumes fname logger fs content hex]
    exact readFile_writeFile_same fs (fname ++ ".bak") content
  refine ⟨hbak, ?_⟩
  unfold insert_plumes_in_file
  rw [if_pos (by simpa [List.length_pos] using hne)]
  rcases hs : sortPlumes (mergeAndBackup plumes fname logger fs).1 sort_by_key logger
    with ⟨res, lg⟩
  cases res with
  | error e => simp only [hs]; exact hbak
  | ok sorted =>
    simp only [hs, writeTable_eq]
    rw [readFile_writeFile_ne _ fname (tableFor sorted) (fname ++ ".bak") (append_bak_ne fname)]
    exact hbak

/-- C2 witness: a concrete non-empty call against an existing output file. -/
theorem backup_before_rewrite_witness :
    (mergeAndBackup [[("a", "2")]] "out.csv" true
        [("out.csv", "a\r\n1\r\n")]).2.1.readFile "out.csv.bak" = some "a\r\n1\r\n" ∧
    (insert_plumes_in_file [[("a", "2")]] "out.csv" (some "a") true
        [("out.csv", "a\r\n1\r\n")]).fs.readFile "out.csv.bak" = some "a\r\n1\r\n" :=
  backup_before_rewrite [[("a", "2")]] "out.csv" (some "a") true
    [("out.csv", "a\r\n1\r\n")] "a\r\n1\r\n" (by simp) rfl

/-- C1 counterexample: a record whose field set does not match the header can
also be one with MISSING keys only, and such a record is NOT skipped.  With
header `a,b` derived from the first record, the second record has only key
`a` (so its field set does not match the header), yet the written file
contains its row `3,` — the mismatched record was written, not skipped. -/
theorem mismatched_row_is_written :
    (insert_plumes_in_file [[("a", "1"), ("b", "2")], [("a", "3")]] "out.csv"
        none true []).fs.readFile "out.csv" = some "a,b\r\n1,2\r\n3,\r\n" := by
  rfl

/-- C1 (amended): for every non-empty record list, a record is skipped (with a
warning) exactly when it has a key OUTSIDE the header derived from the first
record; a record that merely misses header keys is still written, with empty
values for the missing fields; every header-conforming record is written in
order, and no mismatch aborts the write (the call returns normally). -/
theorem writer_skips_only_extra_key_rows (plumes : List Record) (fname : String)
    (logger : Bool) (fs : FS) (hne : plumes ≠ []) :
    (insert_plumes_in_file plumes fname none logger fs).fs.readFile fname =
      some (tableFor (combinedPlumes plumes fname fs)) ∧
    (insert_plumes_in_file plumes fname none logger fs).outcome = .ok () ∧
    (logger = true → ∀ d ∈ combinedPlumes plumes fname fs,
      fitsHeader (keys ((combinedPlumes plumes fname fs).headD [])) d = false →
      ("Could not write plume: " ++ fmtRecord d) ∈
        (insert_plumes_in_file plumes fname none logger fs).log) := by
  have h := insert_nonempty_ok plumes fname none logger fs hne
    (mergeAndBackup plumes fname logger fs).1 [] (sortPlumes_none _ _)
  rw [mergeAndBackup_fst] at h
  refine ⟨?_, ?_, ?_⟩
  · rw [h]
    exact readFile_writeFile_same _ _ _
  · rw [h]
  · intro hl d hd hfit
    rw [h]
    have hmem : ("Could not write plume: " ++ fmtRecord d) ∈
        ((combinedPlumes plumes fname fs).filter
          (fun d => !fitsHeader (keys ((combinedPlumes plumes fname fs).headD [])) d)).flatMap
          (rowWarnings fname logger) := by
      refine List.mem_flatMap.mpr
        ⟨d, List.mem_filter.mpr ⟨hd, by simp only [hfit, Bool.not_false]⟩, ?_⟩
      simp [rowWarnings, hl]
    simp only [List.mem_append]
    exact Or.inl (Or.inr hmem)

/-- C1 witness: a concrete non-empty writer call. -/
theorem writer_skips_only_extra_key_rows_witness :
    (insert_plumes_in_file [[("a", "1")]] "o.csv" none true []).outcome = .ok () :=
  (writer_skips_only_extra_key_rows [[("a", "1")]] "o.csv" true [] (by simp)).2.1

/-- C3 counterexample: a missing sort key CAN make the call fail.  The sort
key `k` is present in the first record but absent from the second, so the
`sorted` call raises a `KeyError` and the writer call aborts instead of
recovering — refuting "in no case does a missing sort key make the call
fail". -/
theorem missing_sort_key_aborts_call :
    (insert_plumes_in_file [[("k", "2")], [("x", "9")]] "out.csv" (some "k")
        true []).outcome = .error (.keyError "k") := by
  rfl

/-- C3 (amended): the presence check is made on the FIRST record of the
combined list only.  If the key is present in the first record and in every
record, the combined list is stable-sorted by the key (string comparison) and
written; if the key is absent from the first record the list is written in
its existing-then-new order with a warning and the call succeeds; but if the
key is present in the first record and absent from some later record, the
sort raises a `KeyError` and the call fails. -/
theorem sort_key_branch_behavior (plumes : List Record) (fname k : String)
    (logger : Bool) (fs : FS) (hne : plumes ≠ []) :
    (hasKey ((combinedPlumes plumes fname fs).headD []) k = true →
     (combinedPlumes plumes fname fs).all (fun d => hasKey d k) = true →
       (insert_plumes_in_file plumes fname (some k) logger fs).fs.readFile fname =
         some (tableFor ((combinedPlumes plumes fname fs).mergeSort (recLe k))) ∧
       ((combinedPlumes plumes fname fs).mergeSort (recLe k)).Perm
         (combinedPlumes plumes fname fs) ∧
       List.Pairwise (fun d₁ d₂ => recLe k d₁ d₂ = true)
         ((combinedPlumes plumes fname fs).mergeSort (recLe k)) ∧
       (insert_plumes_in_file plumes fname (some k) logger fs).outcome = .ok ()) ∧
    (hasKey ((combinedPlumes plumes fname fs).headD []) k = false →
       (insert_plumes_in_file plumes fname (some k) logger fs).fs.readFile fname =
         some (tableFor (combinedPlumes plumes fname fs)) ∧
       (insert_plumes_in_file plumes fname (some k) logger fs).outcome = .ok () ∧
       (logger = true →
         ("Sort key " ++ k ++ " not found.") ∈
           (insert_plumes_in_file plumes fname (some k) logger fs).log)) ∧
    (hasKey ((combinedPlumes plumes fname fs).headD []) k = true →
     (combinedPlumes plumes fname fs).all (fun d => hasKey d k) = false →
       (insert_plumes_in_file plumes fname (some k) logger fs).outcome =
         .error (.keyError k)) := by
  refine ⟨fun h1 h2 => ?_, fun h1 => ?_, fun h1 h2 => ?_⟩
  · have hs : sortPlumes (mergeAndBackup plumes fname logger fs).1 (some k) logger =
        (.ok ((combinedPlumes plumes fname fs).mergeSort (recLe k)), []) := by
      rw [mergeAndBackup_fst]
      exact sortPlumes_sorts _ k logger h1 h2
    have h := insert_nonempty_ok plumes fname (some k) logger fs hne _ _ hs
    refine ⟨?_, List.mergeSort_perm _ _, ?_, ?_⟩
    · rw [h]
      exact readFile_writeFile_same _ _ _
    · exact @List.sorted_mergeSort Record (recLe k)
        (fun a b c hab hbc => recLe_trans hab hbc) (recLe_total k) _
    · rw [h]
  · have hs : sortPlumes (mergeAndBackup plumes fname logger fs).1 (some k) logger =
        (.ok (combinedPlumes plumes fname fs),
         if logger then ["Sort key " ++ k ++ " not found.", "Plumes left unsorted."]
         else []) := by
      rw [mergeAndBackup_fst]
      exact sortPlumes_missing_first _ k logger h1
    have h := insert_nonempty_ok plumes fname (some k) logger fs hne _ _ hs
    refine ⟨?_, ?_, fun hl => ?_⟩
    · rw [h]
      exact readFile_writeFile_same _ _ _
    · rw [h]
    · rw [h]
      simp [hl]
  · have hs : sortPlumes (mergeAndBackup plumes fname logger fs).1 (some k) logger =
        (.error (.keyError k), []) := by
      rw [mergeAndBackup_fst]
      exact sortPlumes_missing_later _ k logger h1 h2
    have h := insert_nonempty_error plumes fname (some k) logger fs hne _ _ hs
    rw [h]

/-- C3 witness: sorting succeeds when the key is present in every record. -/
theorem sort_key_branch_behavior_witness :
    (insert_plumes_in_file [[("k", "2")], [("k", "1")]] "o.csv" (some "k")
        true []).outcome = .ok () :=
  ((sort_key_branch_behavior [[("k", "2")], [("k", "1")]] "o.csv" "k" true []
      (by simp)).1 rfl rfl).2.2.2

theorem foldl_processPlumeStep_unknown (env : Env) (logger : Bool)
    (winds_dir : String) (fill : Option Int) :
    ∀ (l : List String) (st : Record × Record × List String),
      (∀ d ∈ l, (env.windType d).is_unknown = true) →
      ((l.foldl (processPlumeStep env logger winds_dir fill) st).1 = st.1 ∧
       (l.foldl (processPlumeStep env logger winds_dir fill) st).2.1 = st.2.1)
  | [], _, _ => ⟨rfl, rfl⟩
  | d :: l, st, h => by
    have hd := h d (List.mem_cons_self d l)
    have hstep : processPlumeStep env logger winds_dir fill st d =
        (st.1, st.2.1,
         st.2.2 ++ (if logger then ["processing for winds in " ++ d] else [])) := by
      simp [processPlumeStep, hd]
    rw [List.foldl_cons, hstep]
    exact foldl_processPlumeStep_unknown env logger winds_dir fill l _
      (fun x hx => h x (List.mem_cons_of_mem d hx))

/-- C5: when every non-hidden entry of the wind root classifies as unknown,
enrichment returns the record unchanged — unknown subdirectories contribute
no wind-stat and no emission-stat fields, and hidden entries (leading dot)
are filtered out before classification is even consulted. -/
theorem unknown_winds_leave_record_unchanged (env : Env) (logger : Bool)
    (plume : Record) (winds_dir : String) (fill : Option Int)
    (h : ∀ d ∈ env.listdir, d.startsWith "." = false →
      (env.windType d).is_unknown = true) :
    (process_plume env logger plume winds_dir fill).1 = plume := by
  have hsub : ∀ d ∈ (env.listdir.filter (fun f => !f.startsWith ".")).mergeSort strLe,
      (env.windType d).is_unknown = true := by
    intro d hd
    rw [List.mem_mergeSort] at hd
    have hm := List.mem_filter.mp hd
    exact h d hm.1 (by simpa using hm.2)
  have hfold := foldl_processPlumeStep_unknown env logger winds_dir fill
    ((env.listdir.filter (fun f => !f.startsWith ".")).mergeSort strLe)
    (plume, [],
     if logger then ["processing plume " ++ fmtRecord plume, fmtRecord plume] else [])
    hsub
  simp only [process_plume]
  rw [hfold.1, hfold.2]
  rfl

/-- C5 witness: a wind root listing one unknown directory and one hidden
entry. -/
theorem unknown_winds_leave_record_unchanged_witness :
    (process_plume ⟨["zulu", ".hidden"], fun _ => ⟨true, "", []⟩,
        fun p _ _ _ _ => p, fun p _ _ => p⟩ true [("id", "1")] "winds" none).1 =
      [("id", "1")] :=
  unknown_winds_leave_record_unchanged
    ⟨["zulu", ".hidden"], fun _ => ⟨true, "", []⟩, fun p _ _ _ _ => p, fun p _ _ => p⟩
    true [("id", "1")] "winds" none (fun _ _ _ => rfl)

/-- C8: enrichment is deterministic.  The directory listing and the altitude
collections reach the engine in arbitrary enumeration order, but both are
sorted before use, so two runs over permuted enumerations (with the same pure
external statistics functions) produce the same record field-for-field. -/
theorem enrichment_deterministic (l₁ l₂ : List String)
    (c₁ c₂ : String → WindTypeInfo)
    (w : Record → String → Option Int → String → String → Record)
    (e : Record → String → Option Int → Record) (logger : Bool) (plume : Record)
    (winds_dir : String) (fill : Option Int)
    (hl : l₁.Perm l₂)
    (hc : ∀ d, (c₁ d).is_unknown = (c₂ d).is_unknown ∧
               (c₁ d).type_as_str = (c₂ d).type_as_str ∧
               (c₁ d).alts.Perm (c₂ d).alts) :
    (process_plume ⟨l₁, c₁, w, e⟩ logger plume winds_dir fill).1 =
    (process_plume ⟨l₂, c₂, w, e⟩ logger plume winds_dir fill).1 := by
  have hsubdirs : (l₁.filter (fun f => !f.startsWith ".")).mergeSort strLe =
      (l₂.filter (fun f => !f.startsWith ".")).mergeSort strLe :=
    mergeSort_perm_eq (hl.filter _)
  have hstep : ∀ (st : Record × Record × List String) (d : String),
      processPlumeStep ⟨l₁, c₁, w, e⟩ logger winds_dir fill st d =
      processPlumeStep ⟨l₂, c₂, w, e⟩ logger winds_dir fill st d := by
    intro st d
    obtain ⟨hu, ht, ha⟩ := hc d
    simp only [processPlumeStep]
    rw [hu, ht, mergeSort_perm_eq ha]
  simp only [process_plume]
  rw [hsubdirs, List.foldl_ext _ _ _ (fun st d _ => hstep st d)]

/-- C8 witness: two permuted directory listings with the same classifier. -/
theorem enrichment_deterministic_witness :
    (process_plume ⟨["b", "a"], fun _ => ⟨true, "", []⟩,
        fun p _ _ _ _ => p, fun p _ _ => p⟩ true [("id", "1")] "winds" none).1 =
    (process_plume ⟨["a", "b"], fun _ => ⟨true, "", []⟩,
        fun p _ _ _ _ => p, fun p _ _ => p⟩ true [("id", "1")] "winds" none).1 :=
  enrichment_deterministic ["b", "a"] ["a", "b"] _ _ _ _ true [("id", "1")]
    "winds" none (List.Perm.swap "a" "b" []) (fun _ => ⟨rfl, rfl, List.Perm.refl _⟩)

theorem processPlumeStep_logger (env : Env) (lg₁ lg₂ : Bool) (winds_dir : String)
    (fill : Option Int) (p es : Record) (log₁ log₂ : List String) (d : String) :
    (processPlumeStep env lg₁ winds_dir fill (p, es, log₁) d).1 =
      (processPlumeStep env lg₂ winds_dir fill (p, es, log₂) d).1 ∧
    (processPlumeStep env lg₁ winds_dir fill (p, es, log₁) d).2.1 =
      (processPlumeStep env lg₂ winds_dir fill (p, es, log₂) d).2.1 := by
  simp only [processPlumeStep]
  by_cases hu : (env.windType d).is_unknown = true <;> simp [hu]

theorem foldl_processPlumeStep_logger (env : Env) (lg₁ lg₂ : Bool)
    (winds_dir : String) (fill : Option Int) :
    ∀ (l : List String) (p es : Record) (log₁ log₂ : List String),
      ((l.foldl (processPlumeStep env lg₁ winds_dir fill) (p, es, log₁)).1 =
       (l.foldl (processPlumeStep env lg₂ winds_dir fill) (p, es, log₂)).1) ∧
      ((l.foldl (processPlumeStep env lg₁ winds_dir fill) (p, es, log₁)).2.1 =
       (l.foldl (processPlumeStep env lg₂ winds_dir fill) (p, es, log₂)).2.1)
  | [], _, _, _, _ => ⟨rfl, rfl⟩
  | d :: l, p, es, log₁, log₂ => by
    obtain ⟨h1, h2⟩ := processPlumeStep_logger env lg₁ lg₂ winds_dir fill p es log₁ log₂ d
    have ih := foldl_processPlumeStep_logger env lg₁ lg₂ winds_dir fill l
      (processPlumeStep env lg₁ winds_dir fill (p, es, log₁) d).1
      (processPlumeStep env lg₁ winds_dir fill (p, es, log₁) d).2.1
      (processPlumeStep env lg₁ winds_dir fill (p, es, log₁) d).2.2
      (processPlumeStep env lg₂ winds_dir fill (p, es, log₂) d).2.2
    have hT : ((processPlumeStep env lg₁ winds_dir fill (p, es, log₁) d).1,
               (processPlumeStep env lg₁ winds_dir fill (p, es, log₁) d).2.1,
               (processPlumeStep env lg₂ winds_dir fill (p, es, log₂) d).2.2) =
        processPlumeStep env lg₂ winds_dir fill (p, es, log₂) d := by
      rw [h1, h2]
    rw [hT] at ih
    simpa only [List.foldl_cons] using ih

theorem process_plume_logger (env : Env) (lg₁ lg₂ : Bool) (plume : Record)
    (winds_dir : String) (fill : Option Int) :
    (process_plume env lg₁ plume winds_dir fill).1 =
      (process_plume env lg₂ plume winds_dir fill).1 := by
  obtain ⟨h1, h2⟩ := foldl_processPlumeStep_logger env lg₁ lg₂ winds_dir fill
    ((env.listdir.filter (fun f => !f.startsWith ".")).mergeSort strLe) plume []
    (if lg₁ then ["processing plume " ++ fmtRecord plume, fmtRecord plume] else [])
    (if lg₂ then ["processing plume " ++ fmtRecord plume, fmtRecord plume] else [])
  simp only [process_plume]
  rw [h1, h2]

theorem foldl_enrichStep_logger (env : Env) (lg₁ lg₂ : Bool) (winds_dir : String)
    (fill : Option Int) :
    ∀ (l : List Record) (acc : List Record) (log₁ log₂ : List String),
      (l.foldl (enrichStep env lg₁ winds_dir fill) (acc, log₁)).1 =
      (l.foldl (enrichStep env lg₂ winds_dir fill) (acc, log₂)).1
  | [], _, _, _ => rfl
  | p :: l, acc, log₁, log₂ => by
    simp only [List.foldl_cons, enrichStep]
    rw [process_plume_logger env lg₁ lg₂ p winds_dir fill]
    exact foldl_enrichStep_logger env lg₁ lg₂ winds_dir fill l _ _ _

theorem process_plumes_logger (env : Env) (fs : FS) (flist : List String)
    (winds_dir : String) (fill : Option Int) (minppmm_key : String)
    (lg₁ lg₂ : Bool) :
    (process_plumes env fs flist winds_dir fill minppmm_key lg₁).result =
    (process_plumes env fs flist winds_dir fill minppmm_key lg₂).result := by
  rcases hload : loadAll fs minppmm_key flist with e | plumes
  · simp only [process_plumes, hload]
  · rcases hhead : plumes.head? with _ | first
    · simp only [process_plumes, hload, hhead]
    · rcases hkeys : (keys first).head? with _ | k
      · simp only [process_plumes, hload, hhead, hkeys]
      · by_cases hall : plumes.all (fun d => hasKey d k) = true
        · simp only [process_plumes, hload, hhead, hkeys, hall, if_true]
          exact congrArg Except.ok
            (foldl_enrichStep_logger env lg₁ lg₂ winds_dir fill _ _ _ _)
        · simp only [process_plumes, hload, hhead, hkeys, if_neg hall]

theorem mergeAndBackup_logger (plumes : List Record) (fname : String)
    (lg₁ lg₂ : Bool) (fs : FS) :
    (mergeAndBackup plumes fname lg₁ fs).1 = (mergeAndBackup plumes fname lg₂ fs).1 ∧
    (mergeAndBackup plumes fname lg₁ fs).2.1 = (mergeAndBackup plumes fname lg₂ fs).2.1 := by
  unfold mergeAndBackup
  cases fs.readFile fname <;> exact ⟨rfl, rfl⟩

theorem sortPlumes_logger (ps : List Record) (sort_by_key : Option String)
    (lg₁ lg₂ : Bool) :
    (sortPlumes ps sort_by_key lg₁).1 = (sortPlumes ps sort_by_key lg₂).1 := by
  cases sort_by_key with
  | none => rfl
  | some k =>
    simp only [sortPlumes]
    by_cases h1 : hasKey (ps.headD []) k = true
    · rw [if_pos h1, if_pos h1]
    · rw [if_neg h1, if_neg h1]

theorem insert_logger (plumes : List Record) (fname : String)
    (sort_by_key : Option String) (lg₁ lg₂ : Bool) (fs : FS) :
    (insert_plumes_in_file plumes fname sort_by_key lg₁ fs).fs =
      (insert_plumes_in_file plumes fname sort_by_key lg₂ fs).fs ∧
    (insert_plumes_in_file plumes fname sort_by_key lg₁ fs).outcome =
      (insert_plumes_in_file plumes fname sort_by_key lg₂ fs).outcome := by
  by_cases hne : plumes = []
  · subst hne
    exact ⟨rfl, rfl⟩
  · have hm1 := mergeAndBackup_fst plumes fname lg₁ fs
    have hm2 := mergeAndBackup_fst plumes fname lg₂ fs
    have hmfs := (mergeAndBackup_logger plumes fname lg₁ lg₂ fs).2
    rcases hs₁ : sortPlumes (combinedPlumes plumes fname fs) sort_by_key lg₁
      with ⟨r₁, log₁⟩
    rcases hs₂ : sortPlumes (combinedPlumes plumes fname fs) sort_by_key lg₂
      with ⟨r₂, log₂⟩
    have hr : r₁ = r₂ := by
      have := sortPlumes_logger (combinedPlumes plumes fname fs) sort_by_key lg₁ lg₂
      rw [hs₁, hs₂] at this
      exact this
    cases r₁ with
    | error e =>
      have e₁ := insert_nonempty_error plumes fname sort_by_key lg₁ fs hne e log₁
        (by rw [hm1]; exact hs₁)
      have e₂ := insert_nonempty_error plumes fname sort_by_key lg₂ fs hne e log₂
        (by rw [hm2, hs₂, ← hr])
      rw [e₁, e₂]
      exact ⟨hmfs, rfl⟩
    | ok sorted =>
      have e₁ := insert_nonempty_ok plumes fname sort_by_key lg₁ fs hne sorted log₁
        (by rw [hm1]; exact hs₁)
      have e₂ := insert_nonempty_ok plumes fname sort_by_key lg₂ fs hne sorted log₂
        (by rw [hm2, hs₂, ← hr])
      rw [e₁, e₂]
      exact ⟨by rw [hmfs], rfl⟩

/-- C9: the logger argument is purely observational.  For each core
operation, running with the logger enabled and with it absent yields the same
record / result / filesystem state and call outcome; only the emitted message
stream differs. -/
theorem logger_does_not_change_behavior (env : Env) (fs : FS)
    (flist : List String) (winds_dir : String) (fill : Option Int)
    (minppmm_key : String) (plume : Record) (plumes : List Record)
    (fname : String) (sort_by_key : Option String) :
    (process_plume env true plume winds_dir fill).1 =
      (process_plume env false plume winds_dir fill).1 ∧
    (process_plumes env fs flist winds_dir fill minppmm_key true).result =
      (process_plumes env fs flist winds_dir fill minppmm_key false).result ∧
    (insert_plumes_in_file plumes fname sort_by_key true fs).fs =
      (insert_plumes_in_file plumes fname sort_by_key false fs).fs ∧
    (insert_plumes_in_file plumes fname sort_by_key true fs).outcome =
      (insert_plumes_in_file plumes fname sort_by_key false fs).outcome :=
  ⟨process_plume_logger env true false plume winds_dir fill,
   process_plumes_logger env fs flist winds_dir fill minppmm_key true false,
   (insert_logger plumes fname sort_by_key true false fs).1,
   (insert_logger plumes fname sort_by_key true false fs).2⟩

theorem foldl_enrichStep_fst (env : Env) (logger : Bool) (winds_dir : String)
    (fill : Option Int) :
    ∀ (l : List Record) (acc : List Record) (log : List String),
      (l.foldl (enrichStep env logger winds_dir fill) (acc, log)).1 =
        acc ++ l.map (fun p => (process_plume env logger p winds_dir fill).1)
  | [], acc, _ => by simp
  | p :: l, acc, log => by
    simp only [List.foldl_cons, enrichStep, List.map_cons]
    rw [foldl_enrichStep_fst env logger winds_dir fill l _ _]
    simp

/-- C6: with every input file present and parseable, the loader sorts the
combined record list by the value of the first field name of the first loaded
record — a positional first-column key, taken from `plumes[0]`, not a named
one — before enriching each record in that sorted order. -/
theorem loader_sorts_by_first_field (env : Env) (fs : FS) (flist : List String)
    (winds_dir : String) (fill : Option Int) (minppmm_key : String)
    (logger : Bool) (plumesAll : List Record) (first : Record) (k : String)
    (hload : loadAll fs minppmm_key flist = .ok plumesAll)
    (hfirst : plumesAll.head? = some first)
    (hk : (keys first).head? = some k)
    (hall : plumesAll.all (fun d => hasKey d k) = true) :
    (plumesAll.mergeSort (recLe k)).Perm plumesAll ∧
    List.Pairwise (fun d₁ d₂ => recLe k d₁ d₂ = true) (plumesAll.mergeSort (recLe k)) ∧
    (process_plumes env fs flist winds_dir fill minppmm_key logger).result =
      .ok ((plumesAll.mergeSort (recLe k)).map
        (fun p => (process_plume env logger p winds_dir fill).1)) := by
  refine ⟨List.mergeSort_perm _ _,
    @List.sorted_mergeSort Record (recLe k)
      (fun a b c hab hbc => recLe_trans hab hbc) (recLe_total k) _, ?_⟩
  simp only [process_plumes, hload, hfirst, hk, hall, if_true]
  rw [foldl_enrichStep_fst env logger winds_dir fill _ _ _]
  simp

/-- C6 witness: one file with two rows, identifier column first; the loader
returns them sorted by the `id` column. -/
theorem loader_sorts_by_first_field_witness :
    (process_plumes ⟨[], fun _ => ⟨true, "", []⟩, fun p _ _ _ _ => p, fun p _ _ => p⟩
        [("f_minppmm5", "id\r\n2\r\n1\r\n")] ["f_minppmm5"] "w" none "MT"
        true).result =
      .ok ((([[("id", "2"), ("MT", "5")], [("id", "1"), ("MT", "5")]] :
            List Record).mergeSort (recLe "id")).map
        (fun p => (process_plume ⟨[], fun _ => ⟨true, "", []⟩, fun p _ _ _ _ => p,
            fun p _ _ => p⟩ true p "w" none).1)) :=
  (loader_sorts_by_first_field _ [("f_minppmm5", "id\r\n2\r\n1\r\n")]
      ["f_minppmm5"] "w" none "MT" true
      [[("id", "2"), ("MT", "5")], [("id", "1"), ("MT", "5")]]
      [("id", "2"), ("MT", "5")] "id" rfl rfl rfl rfl).2.2

theorem loadAll_empty (fs : FS) (minppmm_key : String) :
    ∀ flist : List String,
      (∀ fname ∈ flist, (get_minppmm_from_fname fname).isSome = true ∧
        ∃ content, fs.readFile fname = some content ∧ dictRead content true = []) →
      loadAll fs minppmm_key flist = .ok []
  | [], _ => rfl
  | fname :: rest, h => by
    obtain ⟨hm, content, hr, hd⟩ := h fname (List.mem_cons_self fname rest)
    rcases hmm : get_minppmm_from_fname fname with _ | n
    · rw [hmm] at hm
      simp at hm
    · simp only [loadAll, hmm, dict_reader_plus_update, hr, hd, List.map_nil]
      rw [loadAll_empty fs minppmm_key rest
        (fun x hx => h x (List.mem_cons_of_mem fname hx))]
      rfl

/-- C10: when every input file exists, has a parseable threshold in its name,
and contributes zero data rows, the loader does not return an empty record
list — taking `plumes[0]` for the sort key raises an `IndexError`, so an
empty load is fatal. -/
theorem empty_load_is_fatal (env : Env) (fs : FS) (flist : List String)
    (winds_dir : String) (fill : Option Int) (minppmm_key : String)
    (logger : Bool)
    (h : ∀ fname ∈ flist, (get_minppmm_from_fname fname).isSome = true ∧
      ∃ content, fs.readFile fname = some content ∧ dictRead content true = []) :
    (process_plumes env fs flist winds_dir fill minppmm_key logger).result =
      .error .indexError := by
  simp only [process_plumes, loadAll_empty fs minppmm_key flist h, List.head?_nil]

/-- C10 witness: a single header-only file. -/
theorem empty_load_is_fatal_witness :
    (process_plumes ⟨[], fun _ => ⟨true, "", []⟩, fun p _ _ _ _ => p, fun p _ _ => p⟩
        [("a_minppmm7", "h1,h2\r\n")] ["a_minppmm7"] "w" none "MT" true).result =
      .error .indexError :=
  empty_load_is_fatal _ [("a_minppmm7", "h1,h2\r\n")] ["a_minppmm7"] "w" none "MT"
    true (fun fname hf => by
      rw [List.mem_singleton.mp hf]
      exact ⟨rfl, "h1,h2\r\n", rfl, rfl⟩)

/-! ## The threshold pattern search -/

theorem charsStartWith_append : ∀ (p t : List Char),
    charsStartWith p (p ++ t) = true
  | [], _ => rfl
  | c :: p, t => by
    simp only [List.cons_append, charsStartWith, beq_self_eq_true, Bool.true_and]
    exact charsStartWith_append p t

theorem charsStartWith_exists : ∀ (p s : List Char),
    charsStartWith p s = true → ∃ t, s = p ++ t
  | [], s, _ => ⟨s, rfl⟩
  | c :: p, [], h => by simp [charsStartWith] at h
  | c :: p, x :: s, h => by
    simp only [charsStartWith, Bool.and_eq_true, beq_iff_eq] at h
    obtain ⟨t, ht⟩ := charsStartWith_exists p s h.2
    exact ⟨t, by rw [h.1, ht]; rfl⟩

theorem reSearchMinppmm_sound : ∀ (s ds : List Char),
    reSearchMinppmm s = some ds →
      ∃ a b, s = a ++ "minppmm".data ++ ds ++ b ∧ ds ≠ [] ∧
        ∀ c ∈ ds, c.isDigit = true
  | [], ds, h => by simp [reSearchMinppmm] at h
  | c :: cs, ds, h => by
    simp only [reSearchMinppmm] at h
    by_cases hs : charsStartWith "minppmm".data (c :: cs) = true
    · obtain ⟨t, ht⟩ := charsStartWith_exists "minppmm".data (c :: cs) hs
      have hdrop : (c :: cs).drop 7 = t := by
        rw [ht]
        exact List.drop_left' (by rfl)
      rw [if_pos hs] at h
      by_cases he : ((c :: cs).drop 7).takeWhile Char.isDigit = []
      · rw [if_pos (by rw [he]; rfl)] at h
        obtain ⟨a, b, hdec, hne, hdig⟩ := reSearchMinppmm_sound cs ds h
        exact ⟨c :: a, b, by rw [hdec]; simp [List.cons_append], hne, hdig⟩
      · rw [if_neg (by rw [List.isEmpty_iff]; exact he)] at h
        have hds : ds = ((c :: cs).drop 7).takeWhile Char.isDigit :=
          (Option.some.injEq _ _ ▸ h).symm
        refine ⟨[], t.dropWhile Char.isDigit, ?_, hds ▸ he, ?_⟩
        · rw [List.nil_append, ht, hds, hdrop, List.append_assoc,
              List.takeWhile_append_dropWhile]
        · intro x hx
          rw [hds] at hx
          exact List.mem_takeWhile_imp hx
    · rw [if_neg hs] at h
      obtain ⟨a, b, hdec, hne, hdig⟩ := reSearchMinppmm_sound cs ds h
      exact ⟨c :: a, b, by rw [hdec]; simp [List.cons_append], hne, hdig⟩

theorem reSearchMinppmm_complete : ∀ (a ds b : List Char), ds ≠ [] →
    (∀ c ∈ ds, c.isDigit = true) →
    (reSearchMinppmm (a ++ "minppmm".data ++ ds ++ b)).isSome = true
  | [], [], _, hne, _ => absurd rfl hne
  | [], d :: ds, b, _, hdig => by
    show (reSearchMinppmm ('m' :: ("inppmm".data ++ ((d :: ds) ++ b)))).isSome = true
    have hsw : charsStartWith "minppmm".data
        ('m' :: ("inppmm".data ++ ((d :: ds) ++ b))) = true :=
      charsStartWith_append "minppmm".data ((d :: ds) ++ b)
    have htw : (('m' :: ("inppmm".data ++ ((d :: ds) ++ b))).drop 7).takeWhile
        Char.isDigit = d :: (ds ++ b).takeWhile Char.isDigit := by
      show ((("minppmm".data ++ ((d :: ds) ++ b))).drop 7).takeWhile Char.isDigit = _
      rw [List.drop_left' (show ("minppmm".data).length = 7 from rfl), List.cons_append]
      exact List.takeWhile_cons_of_pos (hdig d (List.mem_cons_self d ds))
    simp only [reSearchMinppmm]
    rw [if_pos hsw, if_neg (by rw [htw]; simp)]
    rfl
  | x :: a, ds, b, hne, hdig => by
    have ih := reSearchMinppmm_complete a ds b hne hdig
    show (reSearchMinppmm (x :: (a ++ "minppmm".data ++ ds ++ b))).isSome = true
    simp only [reSearchMinppmm]
    by_cases hs : charsStartWith "minppmm".data
        (x :: (a ++ "minppmm".data ++ ds ++ b)) = true
    · rw [if_pos hs]
      by_cases he :
          ((x :: (a ++ "minppmm".data ++ ds ++ b)).drop 7).takeWhile Char.isDigit = []
      · rw [if_pos (by rw [he]; rfl)]
        exact ih
      · rw [if_neg (by rw [List.isEmpty_iff]; exact he)]
        rfl
    · rw [if_neg hs]
      exact ih

/-- C4: the threshold parser returns the integer value of the digit group of
a `minppmm<digits>` match whenever the filename contains one, and raises
(`none`, the model of the `ValueError`) exactly when the filename contains no
substring of that shape.  Nothing is caught around it, so the error aborts
the run. -/
theorem threshold_parse_spec (fname : String) :
    (get_minppmm_from_fname fname = none ↔
      ¬ ∃ a ds b, fname.data = a ++ "minppmm".data ++ ds ++ b ∧ ds ≠ [] ∧
        ∀ c ∈ ds, c.isDigit = true) ∧
    (∀ v, get_minppmm_from_fname fname = some v →
      ∃ a ds b, fname.data = a ++ "minppmm".data ++ ds ++ b ∧ ds ≠ [] ∧
        (∀ c ∈ ds, c.isDigit = true) ∧ v = natOfDigits ds) := by
  constructor
  · constructor
    · intro hn hex
      obtain ⟨a, ds, b, hdec, hne, hdig⟩ := hex
      have hsome := reSearchMinppmm_complete a ds b hne hdig
      rw [← hdec] at hsome
      rcases hres : reSearchMinppmm fname.data with _ | ds'
      · rw [hres] at hsome
        simp at hsome
      · simp [get_minppmm_from_fname, hres] at hn
    · intro hno
      rcases hres : reSearchMinppmm fname.data with _ | ds
      · simp [get_minppmm_from_fname, hres]
      · exfalso
        obtain ⟨a, b, hdec, hne, hdig⟩ := reSearchMinppmm_sound fname.data ds hres
        exact hno ⟨a, ds, b, hdec, hne, hdig⟩
  · intro v hv
    rcases hres : reSearchMinppmm fname.data with _ | ds
    · simp [get_minppmm_from_fname, hres] at hv
    · obtain ⟨a, b, hdec, hne, hdig⟩ := reSearchMinppmm_sound fname.data ds hres
      have hval : v = natOfDigits ds := by
        simp only [get_minppmm_from_fname, hres, Option.map_some] at hv
        exact (Option.some.injEq _ _ ▸ hv).symm
      exact ⟨a, ds, b, hdec, hne, hdig, hval⟩

/-- C4 witness: a filename containing `minppmm42`. -/
theorem threshold_parse_spec_witness :
    ∃ a ds b, "xminppmm42y".data = a ++ "minppmm".data ++ ds ++ b ∧ ds ≠ [] ∧
      (∀ c ∈ ds, c.isDigit = true) ∧ 42 = natOfDigits ds :=
  (threshold_parse_spec "xminppmm42y").2 42 rfl

end MsfFlow
